import Mathlib

/-!
# Verification of the gigachat replicated-log engine

Shallow embedding of the gigachat source (src/lib/security/crypto.js,
src/lib/gigauser/Gigauser.js, src/lib/gigaroom/Gigaroom.js,
src/lib/core/user.js and the RoomManager draft) together with proofs of
the specified properties: replay determinism, authorization gating,
invite lifecycle, no-lockout of the writer set, per-entry error isolation,
idempotent re-application, not-writable append failures, pairing timeout
behaviour, and the HMAC-based sign/verify and seed-derived key facts.

Buffers are modelled as lists of naturals (byte lists).  External
dependencies that the repository only calls (autobase's writer-set
bookkeeping, the generated hyperdispatch router, HyperDB's key/document
store) are modelled from the spec where noted; everything else is
translated directly from the JavaScript source.
-/

namespace Gigachat

/-- Byte buffers (`Buffer`/`b4a` values in the source). -/
abbrev Bytes := List Nat

/-! ## src/lib/security/crypto.js

`sign` and `verify` are built on `crypto.createHmac('sha256', key)`.
The HMAC primitive itself is node's crypto library, so it enters the
embedding as an explicit function parameter: `HmacFun.run key data`
is the digest of `data` keyed by `key`. -/

/-- An HMAC-SHA256 primitive: `run key data` is the keyed digest. -/
structure HmacFun where
  run : Bytes → Bytes → Bytes

/-- `crypto.js` `sign(data, privateKey)`: HMAC of the data keyed by the
private key. -/
def sign (H : HmacFun) (data privateKey : Bytes) : Bytes :=
  H.run privateKey data

/-- `crypto.js` `verify(data, signature, publicKey)`: recompute the HMAC
keyed by the *public* key and compare byte-for-byte. -/
def verify (H : HmacFun) (data sigBytes publicKey : Bytes) : Bool :=
  decide (sigBytes = H.run publicKey data)

/-- A message as prepared by `prepareMessageForSigning`: the signable
fields (`id`, `type`, `content`, `author`, `timestamp`) plus the
`signature` field, which is excluded from the signable representation. -/
structure Message where
  id : Bytes
  mtype : Bytes
  content : Bytes
  author : Bytes
  timestamp : Nat
  signature : Bytes

/-- `crypto.js` `prepareMessageForSigning`: a deterministic byte
representation of the signable fields (the `signature` field does not
appear). -/
def prepareMessageForSigning (m : Message) : Bytes :=
  m.id ++ m.mtype ++ m.content ++ m.author ++ [m.timestamp]

/-- `crypto.js` `signMessage(message, privateKey)`: stores
`sign(prepared, privateKey)` in the `signature` field. -/
def signMessage (H : HmacFun) (m : Message) (privateKey : Bytes) : Message :=
  { m with signature := sign H (prepareMessageForSigning m) privateKey }

/-- `crypto.js` `verifySignature(message)`: verifies the stored signature
against the message's own `author` field used as the public key. -/
def verifySignature (H : HmacFun) (m : Message) : Bool :=
  verify H (prepareMessageForSigning m) m.signature m.author

lemma prepare_signMessage (H : HmacFun) (m : Message) (sk : Bytes) :
    prepareMessageForSigning (signMessage H m sk) = prepareMessageForSigning m := rfl

/-! ## Gigauser.deriveKeysFromSeed (src/lib/gigauser/Gigauser.js:1572,
src/lib/core/user.js:1279)

The SHA-256 primitive is again node's crypto library and is passed in as
a function parameter; the only fact used of it is that its digests are
32 bytes long. -/

/-- Seed argument: either a string (byte list) or an array of words,
joined by `' '` (byte 32). -/
inductive SeedInput
  | str (s : Bytes)
  | arr (ws : List Bytes)

/-- `Array.isArray(seed) ? seed.join(' ') : seed` as bytes. -/
def seedPhraseBytes : SeedInput → Bytes
  | .str s => s
  | .arr ws => List.intercalate [32] ws

/-- The bytes of the string `'discovery'`. -/
def discoveryTag : Bytes := [100, 105, 115, 99, 111, 118, 101, 114, 121]

/-- The bytes of the string `'encryption'`. -/
def encryptionTag : Bytes := [101, 110, 99, 114, 121, 112, 116, 105, 111, 110]

/-- The key record returned by `deriveKeysFromSeed`. -/
structure DerivedKeys where
  publicKey : Bytes
  secretKey : Bytes
  discoveryKey : Bytes
  encryptionKey : Bytes
deriving Repr, DecidableEq

/-- `Gigauser.deriveKeysFromSeed(seed)`: SHA-256 master hash of the seed
phrase; `publicKey` is `masterHash.slice(0, 32)`, `secretKey` is the
whole master hash, and discovery/encryption keys hash the master hash
with a tag appended. -/
def deriveKeysFromSeed (sha256 : Bytes → Bytes) (seed : SeedInput) : DerivedKeys :=
  let masterHash := sha256 (seedPhraseBytes seed)
  { publicKey := masterHash.take 32
    secretKey := masterHash
    discoveryKey := sha256 (masterHash ++ discoveryTag)
    encryptionKey := sha256 (masterHash ++ encryptionTag) }

/-- C9: `verify(d, sign(d, sk), pk)` holds iff the HMAC keyed by `pk`
equals the HMAC keyed by `sk` over `d`; in particular every key verifies
its own signatures, `verifySignature` accepts a message signed with the
author key, and — when the HMAC primitive is collision-free in its key —
a signature made with any key other than the author key never
verifies. -/
theorem verify_sign_characterization (H : HmacFun) (d sk pk k : Bytes) (m : Message)
    (hinj : ∀ data k1 k2, H.run k1 data = H.run k2 data → k1 = k2) :
    (verify H d (sign H d sk) pk = true ↔ H.run pk d = H.run sk d)
    ∧ verify H d (sign H d k) k = true
    ∧ verifySignature H (signMessage H m m.author) = true
    ∧ (∀ sk2, sk2 ≠ m.author → verifySignature H (signMessage H m sk2) = false) := by
  refine ⟨?_, ?_, ?_, ?_⟩
  · simp [verify, sign, eq_comm]
  · simp [verify, sign]
  · simp [verifySignature, signMessage, verify, sign, prepareMessageForSigning]
  · intro sk2 hne
    simp only [verifySignature, signMessage, verify, sign, prepareMessageForSigning]
    simp only [decide_eq_false_iff_not]
    intro h
    exact hne (hinj _ _ _ h)

theorem verify_sign_characterization_witness :
    verify ⟨fun key _ => key⟩ [9, 9] (sign ⟨fun key _ => key⟩ [9, 9] [1, 2]) [1, 2] = true :=
  (verify_sign_characterization ⟨fun key _ => key⟩ [9, 9] [0] [1] [1, 2]
    ⟨[], [], [], [3], 0, []⟩ (fun _ _ _ h => h)).2.1

/-- C10: `deriveKeysFromSeed` is a pure function of the seed phrase, an
array seed derives exactly the same keys as its space-joined string, and
because the 32-byte SHA-256 digest is sliced to 32 bytes, the returned
`publicKey` is byte-identical to the returned `secretKey`. -/
theorem deriveKeysFromSeed_pub_eq_secret (sha256 : Bytes → Bytes)
    (h32 : ∀ x, (sha256 x).length = 32) (ws : List Bytes) (s : Bytes) :
    deriveKeysFromSeed sha256 (.arr ws)
      = deriveKeysFromSeed sha256 (.str (List.intercalate [32] ws))
    ∧ (deriveKeysFromSeed sha256 (.str s)).publicKey
      = (deriveKeysFromSeed sha256 (.str s)).secretKey
    ∧ (deriveKeysFromSeed sha256 (.arr ws)).publicKey
      = (deriveKeysFromSeed sha256 (.arr ws)).secretKey := by
  refine ⟨rfl, ?_, ?_⟩ <;>
    simp [deriveKeysFromSeed, List.take_of_length_le (le_of_eq (h32 _))]

theorem deriveKeysFromSeed_pub_eq_secret_witness :
    (deriveKeysFromSeed (fun _ => List.replicate 32 0) (.str [7])).publicKey
      = (deriveKeysFromSeed (fun _ => List.replicate 32 0) (.str [7])).secretKey :=
  (deriveKeysFromSeed_pub_eq_secret (fun _ => List.replicate 32 0)
    (fun _ => by simp) [] [7]).2.1

/-! ## The merge & view engine

The materialized view is HyperDB's key/document store; per the spec it is
a key/document store, so it is modelled as an association list from
(collection, primary key) to a document value.  Handlers stage
`insert`/`delete` operations on a batch which `view.flush()` commits at
the end of each `_apply` call, exactly as in `Gigauser._apply` /
`GigaRoom._apply`. -/

/-- A writer public key (opaque bytes, abstracted to a natural). -/
abbrev WriterKey := Nat

/-- A staged view operation: `context.view.insert` / `context.view.delete`
on a collection, keyed by the record's primary key. -/
inductive ViewOp
  | ins (coll pk val : Nat)
  | del (coll pk : Nat)
deriving Repr, DecidableEq

/-- The committed key/document store. -/
abbrev ViewMap := List ((Nat × Nat) × Nat)

/-- Apply one staged operation: insert replaces any record with the same
primary key; delete removes it. -/
def applyOp (m : ViewMap) : ViewOp → ViewMap
  | .ins c pk v => ((c, pk), v) :: m.filter (fun e => decide (e.1 ≠ (c, pk)))
  | .del c pk => m.filter (fun e => decide (e.1 ≠ (c, pk)))

/-- Apply a list of staged operations in order. -/
def applyOps (m : ViewMap) (ops : List ViewOp) : ViewMap := ops.foldl applyOp m

/-- The view handle passed to handlers: committed state plus the pending
batch that `view.flush()` will commit. -/
structure ViewTx where
  committed : ViewMap
  pending : List ViewOp
deriving Repr, DecidableEq

/-- Stage operations on the open batch. -/
def stageOps (ops : List ViewOp) (tx : ViewTx) : ViewTx :=
  { tx with pending := tx.pending ++ ops }

/-- `view.flush()`: commit the pending batch. -/
def flushTx (tx : ViewTx) : ViewTx :=
  { committed := applyOps tx.committed tx.pending, pending := [] }

/-- Engine state: the autobase writer set plus the view. -/
structure EngineState where
  writers : List WriterKey
  view : ViewTx
deriving Repr, DecidableEq

/-- Modelled from the spec: autobase's `base.addWriter(key)` (autobase is
an external dependency, not in src).  §4.2: adds the target key to the
writer set, effective immediately after the entry. -/
def baseAddWriter (ws : List WriterKey) (k : WriterKey) : List WriterKey :=
  if k ∈ ws then ws else ws ++ [k]

/-- Modelled from the spec: autobase's `base.removeable(key)` (used by
`RoomManager.removeWriter`).  §4.2: `removable(targetKey)` rejects
removing the last remaining writer, i.e. it holds iff some other writer
would remain. -/
def removeable (ws : List WriterKey) (k : WriterKey) : Bool :=
  ws.any (fun w => decide (w ≠ k))

/-- Modelled from the spec: autobase's `base.removeWriter(key)` as invoked
by the `remove-writer` handlers.  §4.2: requires `removable(targetKey)`
(reject if removing the last remaining writer); on rejection the writer
set is unchanged (the raised error is swallowed by `_apply`'s per-node
try/catch). -/
def baseRemoveWriter (ws : List WriterKey) (k : WriterKey) : List WriterKey :=
  if removeable ws k then ws.filter (fun w => decide (w ≠ k)) else ws

/-- A decoded command payload: writer-management commands carry a key,
view commands carry a record with a primary key and a document value. -/
inductive Payload
  | wkey (k : WriterKey)
  | record (pk val : Nat)
deriving Repr, DecidableEq

/-- An encoded node value (`node.value`): hyperdispatch's command id (the
first byte) plus the encoded payload; `none` models a payload that the
command's codec fails to decode. -/
structure Value where
  cmd : Nat
  payload : Option Payload
deriving Repr, DecidableEq

/-- What a registered handler does: mutate the writer set via the base,
or stage view operations. -/
inductive HandlerAction
  | addW (k : WriterKey)
  | remW (k : WriterKey)
  | viewOps (ops : List ViewOp)
deriving Repr, DecidableEq

/-- Run a handler action on the engine state. -/
def runAction (a : HandlerAction) (s : EngineState) : EngineState :=
  match a with
  | .addW k => { s with writers := baseAddWriter s.writers k }
  | .remW k => { s with writers := baseRemoveWriter s.writers k }
  | .viewOps ops => { s with view := stageOps ops s.view }

/-- `Gigauser._registerHandlers` (src/lib/gigauser/Gigauser.js:173-228)
with collection codes 0 invite, 1 profile, 2 rooms, 3 devices,
4 settings, routed by hyperdispatch command id (registration order): 0 remove-writer,
1 add-writer, 2 add-invite (insert only), 3 set-profile (delete then
insert), 4 update-rooms, 5 update-devices, 6 update-settings (all delete
then insert).  Unknown command ids and undecodable payloads error, which
`_apply` catches per node. -/
def decodeGigauser (v : Value) : Except Unit HandlerAction :=
  match v.payload with
  | none => .error ()
  | some (.wkey k) =>
    if v.cmd = 0 then .ok (.remW k)
    else if v.cmd = 1 then .ok (.addW k)
    else .error ()
  | some (.record pk val) =>
    if v.cmd = 2 then .ok (.viewOps [.ins 0 pk val])
    else if v.cmd = 3 then .ok (.viewOps [.del 1 pk, .ins 1 pk val])
    else if v.cmd = 4 then .ok (.viewOps [.del 2 pk, .ins 2 pk val])
    else if v.cmd = 5 then .ok (.viewOps [.del 3 pk, .ins 3 pk val])
    else if v.cmd = 6 then .ok (.viewOps [.del 4 pk, .ins 4 pk val])
    else .error ()

/-- `GigaRoom._registerHandlers` (src/lib/gigaroom/Gigaroom.js:195-315)
with the command ids of `_getCommandNameById` (Gigaroom.js:432-486) and
collection codes 10 invite, 11 room, 12 member, 13 channel, 14 category,
15 role, 16 permissionOverride, 17-27 the per-command collections used by
the placeholder handlers (update-category, delete-category,
create-thread, update-thread, add-message, edit-message, delete-message,
add-reaction, remove-reaction, add-file, add-mention), which insert the
payload under the command's own name. -/
inductive RecHandlerKind
  | insOnly (coll : Nat)
  | delIns (coll : Nat)
  | delOnly (coll : Nat)
deriving Repr, DecidableEq

/-- The view operations a record handler of the given kind stages for a
record with primary key `pk` and document value `val`: insert-only
handlers call `view.insert` once, update handlers delete the existing
record (errors ignored) and insert the new one, delete handlers call
`view.delete` once. -/
def kindOps (k : RecHandlerKind) (pk val : Nat) : List ViewOp :=
  match k with
  | .insOnly c => [.ins c pk val]
  | .delIns c => [.del c pk, .ins c pk val]
  | .delOnly c => [.del c pk]

/-- The record-handler table of `GigaRoom._registerHandlers`, by command
id: 2 add-invite (insert), 3 create-room (insert), 4 update-room
(delete+insert), 5 add-member (insert), 6 update-member (delete+insert),
7 remove-member (delete), 8 create-role (insert), 9 update-role
(delete+insert), 10 delete-role (delete), 11 set-permission-override
(insert), 12 create-channel (insert), 13 update-channel (delete+insert),
14 delete-channel (delete), 15 create-category (insert), 16-26 the
placeholder handlers (insert into the command's own collection). -/
def gigaroomCmdKind (cmd : Nat) : Option RecHandlerKind :=
  if cmd = 2 then some (.insOnly 10)
  else if cmd = 3 then some (.insOnly 11)
  else if cmd = 4 then some (.delIns 11)
  else if cmd = 5 then some (.insOnly 12)
  else if cmd = 6 then some (.delIns 12)
  else if cmd = 7 then some (.delOnly 12)
  else if cmd = 8 then some (.insOnly 15)
  else if cmd = 9 then some (.delIns 15)
  else if cmd = 10 then some (.delOnly 15)
  else if cmd = 11 then some (.insOnly 16)
  else if cmd = 12 then some (.insOnly 13)
  else if cmd = 13 then some (.delIns 13)
  else if cmd = 14 then some (.delOnly 13)
  else if cmd = 15 then some (.insOnly 14)
  else if 16 ≤ cmd ∧ cmd ≤ 26 then some (.insOnly (cmd + 1))
  else none

def decodeGigaroom (v : Value) : Except Unit HandlerAction :=
  match v.payload with
  | none => .error ()
  | some (.wkey k) =>
    if v.cmd = 0 then .ok (.remW k)
    else if v.cmd = 1 then .ok (.addW k)
    else .error ()
  | some (.record pk val) =>
    match gigaroomCmdKind v.cmd with
    | some knd => .ok (.viewOps (kindOps knd pk val))
    | none => .error ()

/-- One iteration of the `for (const node of nodes)` loop of
`Gigauser._apply` / `GigaRoom._apply`: dispatch the node's value through
the router; any error is caught and the node is skipped. -/
def applyNode (decode : Value → Except Unit HandlerAction) (s : EngineState) (v : Value) :
    EngineState :=
  match decode v with
  | .ok a => runAction a s
  | .error _ => s

/-- `await view.flush()` on the engine state. -/
def flushState (s : EngineState) : EngineState :=
  { s with view := flushTx s.view }

/-- `_apply(nodes, view, base)`: dispatch every node in order (per-node
try/catch) and flush the view at the end of the batch. -/
def applyBatch (decode : Value → Except Unit HandlerAction) (s : EngineState)
    (nodes : List Value) : EngineState :=
  flushState (nodes.foldl (applyNode decode) s)

/-! ## Entries and replay order

Autobase computes the linearization; it is an external dependency, so the
order and the per-entry authorization gate are modelled from the spec
(§3, §4.1): each writer's entries are ordered by their own `seq`, ties
between writers are broken by the fixed content-independent rule (writer
key, then seq), and an entry is applied only if its writer key is in the
writer set at the causal point immediately preceding it. -/

/-- A signed log entry: writer key, per-writer sequence number, and the
encoded command value. -/
structure Entry where
  writer : WriterKey
  seq : Nat
  value : Value
deriving Repr, DecidableEq

/-- The deduplication / ordering key of an entry (spec §4.1: duplicates
by writer key + seq are discarded). -/
def entryKey (e : Entry) : Nat × Nat := (e.writer, e.seq)

/-- Modelled from the spec: the engine-defined order relation — writer
key first, then seq (§3 "a deterministic tie-break (lexicographic writer
key)", §4.1 "(e.g., writer key, then seq)"). -/
def entryLe (a b : Entry) : Prop :=
  a.writer < b.writer ∨ (a.writer = b.writer ∧ a.seq ≤ b.seq)

instance : DecidableRel entryLe := fun a b => by
  unfold entryLe; infer_instance

instance : IsTotal Entry entryLe :=
  ⟨fun a b => by
    unfold entryLe
    rcases Nat.lt_trichotomy a.writer b.writer with h | h | h
    · exact Or.inl (Or.inl h)
    · rcases Nat.le_total a.seq b.seq with h2 | h2
      · exact Or.inl (Or.inr ⟨h, h2⟩)
      · exact Or.inr (Or.inr ⟨h.symm, h2⟩)
    · exact Or.inr (Or.inl h)⟩

instance : IsTrans Entry entryLe :=
  ⟨fun a b c hab hbc => by
    unfold entryLe at *
    rcases hab with h1 | ⟨h1, h1s⟩ <;> rcases hbc with h2 | ⟨h2, h2s⟩
    · exact Or.inl (h1.trans h2)
    · exact Or.inl (h2 ▸ h1)
    · exact Or.inl (h1 ▸ h2)
    · exact Or.inr ⟨h1.trans h2, h1s.trans h2s⟩⟩

/-- Modelled from the spec: the engine-defined linear order over a full
entry set — sort by (writer key, seq). -/
def orderEntries (l : List Entry) : List Entry := List.insertionSort entryLe l

/-- Modelled from the spec: one replay step — apply the entry only if its
writer key is in the writer set at the causal point immediately
preceding it (§4.1), then dispatch through the registered handlers with
per-node error isolation. -/
def stepEntry (decode : Value → Except Unit HandlerAction) (s : EngineState) (e : Entry) :
    EngineState :=
  if e.writer ∈ s.writers then applyNode decode s e.value else s

/-- Replay a list of entries in the given order and flush the view. -/
def replayEntries (decode : Value → Except Unit HandlerAction) (s : EngineState)
    (l : List Entry) : EngineState :=
  flushState (l.foldl (stepEntry decode) s)

lemma sorted_orderEntries (l : List Entry) : List.Sorted entryLe (orderEntries l) :=
  List.sorted_insertionSort entryLe l

lemma perm_orderEntries (l : List Entry) : (orderEntries l).Perm l :=
  List.perm_insertionSort entryLe l

lemma entryKey_eq_of_le_ge {a b : Entry} (hab : entryLe a b) (hba : entryLe b a) :
    entryKey a = entryKey b := by
  unfold entryLe at hab hba
  have h : a.writer = b.writer ∧ a.seq = b.seq := by
    rcases hab with h1 | ⟨h1, h1s⟩ <;> rcases hba with h2 | ⟨h2, h2s⟩
    · exact absurd (h1.trans h2) (lt_irrefl _)
    · exact absurd h1 (by rw [h2]; exact lt_irrefl _)
    · exact absurd h2 (by rw [h1]; exact lt_irrefl _)
    · exact ⟨h1, Nat.le_antisymm h1s h2s⟩
  simp [entryKey, h.1, h.2]

/-- Two permutations of the same duplicate-free entry set sort to the
same list under the engine-defined order. -/
lemma orderEntries_eq_of_perm {l1 l2 : List Entry} (hp : l1.Perm l2)
    (hk : l1.Pairwise fun a b => entryKey a ≠ entryKey b) :
    orderEntries l1 = orderEntries l2 := by
  have hsym : ∀ {x y : Entry}, entryKey x ≠ entryKey y → entryKey y ≠ entryKey x :=
    fun h he => h he.symm
  have hk2 : l2.Pairwise fun a b => entryKey a ≠ entryKey b :=
    (hp.pairwise_iff hsym).1 hk
  have hk1s : (orderEntries l1).Pairwise fun a b => entryKey a ≠ entryKey b :=
    ((perm_orderEntries l1).pairwise_iff hsym).2 hk
  have hk2s : (orderEntries l2).Pairwise fun a b => entryKey a ≠ entryKey b :=
    ((perm_orderEntries l2).pairwise_iff hsym).2 hk2
  have hs1 : (orderEntries l1).Pairwise (fun a b => entryLe a b ∧ entryKey a ≠ entryKey b) :=
    (sorted_orderEntries l1).and hk1s
  have hs2 : (orderEntries l2).Pairwise (fun a b => entryLe a b ∧ entryKey a ≠ entryKey b) :=
    (sorted_orderEntries l2).and hk2s
  haveI : IsAntisymm Entry (fun a b => entryLe a b ∧ entryKey a ≠ entryKey b) :=
    ⟨fun a b h1 h2 => absurd (entryKey_eq_of_le_ge h1.1 h2.1) h1.2⟩
  exact List.eq_of_perm_of_sorted
    (((perm_orderEntries l1).trans hp).trans (perm_orderEntries l2).symm) hs1 hs2

/-- C1: replaying the same full entry set in the engine-defined order is
deterministic — for any two arrival orders of the same duplicate-free
entry set, sorting them into the engine order and replaying through the
apply function yields identical engine states (writer set and
materialized view), byte for byte. -/
theorem replay_determinism (decode : Value → Except Unit HandlerAction)
    (s0 : EngineState) (l1 l2 : List Entry)
    (hperm : l1.Perm l2)
    (hk : l1.Pairwise fun a b => entryKey a ≠ entryKey b) :
    replayEntries decode s0 (orderEntries l1) = replayEntries decode s0 (orderEntries l2) := by
  rw [orderEntries_eq_of_perm hperm hk]

theorem replay_determinism_witness :
    replayEntries decodeGigauser ⟨[1], ⟨[], []⟩⟩
        (orderEntries [⟨1, 1, ⟨2, some (.record 5 9)⟩⟩, ⟨2, 1, ⟨2, some (.record 6 7)⟩⟩])
      = replayEntries decodeGigauser ⟨[1], ⟨[], []⟩⟩
        (orderEntries [⟨2, 1, ⟨2, some (.record 6 7)⟩⟩, ⟨1, 1, ⟨2, some (.record 5 9)⟩⟩]) :=
  replay_determinism decodeGigauser ⟨[1], ⟨[], []⟩⟩ _ _
    (List.Perm.swap _ _ _) (by decide)

/-- C2: an entry whose writer key is not in the writer set at the causal
point immediately preceding it is skipped, and the replayed state — in
particular the materialized view — is exactly as if the entry were
absent, so such an entry is never reflected in the view. -/
theorem unauthorized_entry_never_reflected (decode : Value → Except Unit HandlerAction)
    (s0 : EngineState) (xs ys : List Entry) (e : Entry)
    (h : e.writer ∉ (xs.foldl (stepEntry decode) s0).writers) :
    replayEntries decode s0 (xs ++ e :: ys) = replayEntries decode s0 (xs ++ ys) := by
  unfold replayEntries
  rw [List.foldl_append, List.foldl_append, List.foldl_cons]
  have : stepEntry decode (xs.foldl (stepEntry decode) s0) e
      = xs.foldl (stepEntry decode) s0 := by
    simp only [stepEntry]
    exact if_neg h
  rw [this]

theorem unauthorized_entry_never_reflected_witness :
    replayEntries decodeGigauser ⟨[1], ⟨[], []⟩⟩
        ([] ++ ⟨2, 1, ⟨2, some (.record 5 9)⟩⟩ :: [⟨1, 1, ⟨2, some (.record 6 7)⟩⟩])
      = replayEntries decodeGigauser ⟨[1], ⟨[], []⟩⟩
        ([] ++ [⟨1, 1, ⟨2, some (.record 6 7)⟩⟩]) :=
  unauthorized_entry_never_reflected decodeGigauser ⟨[1], ⟨[], []⟩⟩ [] _ _ (by decide)

/-- C5: a node whose dispatch fails (unknown command id, undecodable
payload, or a throwing handler — every case the router surfaces as an
error) does not abort the batch: `_apply` catches the error per node, so
the batch result — including the final `view.flush()` — is exactly as if
the bad node were absent, and every other node still reaches the view. -/
theorem bad_node_does_not_abort (decode : Value → Except Unit HandlerAction)
    (s : EngineState) (xs ys : List Value) (bad : Value)
    (hbad : decode bad = .error ()) :
    applyBatch decode s (xs ++ bad :: ys) = applyBatch decode s (xs ++ ys) := by
  unfold applyBatch
  rw [List.foldl_append, List.foldl_append, List.foldl_cons]
  have h : applyNode decode (xs.foldl (applyNode decode) s) bad
      = xs.foldl (applyNode decode) s := by
    simp [applyNode, hbad]
  rw [h]

theorem bad_node_does_not_abort_witness :
    applyBatch decodeGigauser ⟨[1], ⟨[], []⟩⟩
        ([⟨2, some (.record 1 2)⟩] ++ ⟨99, none⟩ :: [⟨2, some (.record 3 4)⟩])
      = applyBatch decodeGigauser ⟨[1], ⟨[], []⟩⟩
        ([⟨2, some (.record 1 2)⟩] ++ [⟨2, some (.record 3 4)⟩]) :=
  bad_node_does_not_abort decodeGigauser ⟨[1], ⟨[], []⟩⟩ _ _ _ rfl

/-- `RoomManager.removeWriter(key)` (src/unnamed/part_002:628-650): throws
`Not writable` if the base is not writable, returns `false` without
appending anything when `base.removeable(key)` fails, and otherwise
appends the `@room/remove-writer` entry and returns `true`. -/
def roomManagerRemoveWriter (writable : Bool) (ws : List WriterKey) (log : List Value)
    (key : WriterKey) : Except String (Bool × List Value) :=
  if writable = false then .error "Not writable"
  else if removeable ws key = false then .ok (false, log)
  else .ok (true, log ++ [{ cmd := 0, payload := some (.wkey key) }])

lemma baseRemoveWriter_ne_nil (ws : List WriterKey) (k : WriterKey) (h : ws ≠ []) :
    baseRemoveWriter ws k ≠ [] := by
  unfold baseRemoveWriter
  split
  · rename_i hrem
    obtain ⟨w, hw, hwk⟩ := List.any_eq_true.mp hrem
    exact List.ne_nil_of_mem (List.mem_filter.mpr ⟨hw, hwk⟩)
  · exact h

lemma runAction_writers_ne_nil (a : HandlerAction) (s : EngineState)
    (h : s.writers ≠ []) : (runAction a s).writers ≠ [] := by
  cases a with
  | addW k =>
    simp only [runAction, baseAddWriter]
    split
    · exact h
    · simp
  | remW k => exact baseRemoveWriter_ne_nil s.writers k h
  | viewOps ops => simpa [runAction] using h

lemma foldl_stepEntry_writers_ne_nil (decode : Value → Except Unit HandlerAction)
    (l : List Entry) (s0 : EngineState) (h : s0.writers ≠ []) :
    (l.foldl (stepEntry decode) s0).writers ≠ [] := by
  induction l generalizing s0 with
  | nil => simpa using h
  | cons e t ih =>
    rw [List.foldl_cons]
    apply ih
    unfold stepEntry applyNode
    split
    · split
      · exact runAction_writers_ne_nil _ _ h
      · exact h
    · exact h

/-- C4: no write-lockout — `RoomManager.removeWriter` on the sole
remaining writer returns `false` and appends nothing, and replaying any
entry list (in particular one full of `remove-writer` entries) through
the engine never empties a non-empty writer set. -/
theorem remove_writer_no_lockout (k : WriterKey) (log : List Value)
    (s0 : EngineState) (l : List Entry) (h : s0.writers ≠ []) :
    roomManagerRemoveWriter true [k] log k = .ok (false, log)
    ∧ (replayEntries decodeGigaroom s0 l).writers ≠ [] := by
  constructor
  · simp [roomManagerRemoveWriter, removeable]
  · unfold replayEntries flushState
    simpa using foldl_stepEntry_writers_ne_nil decodeGigaroom l s0 h

theorem remove_writer_no_lockout_witness :
    roomManagerRemoveWriter true [5] [] 5 = .ok (false, [])
    ∧ (replayEntries decodeGigaroom ⟨[5], ⟨[], []⟩⟩
        [⟨5, 1, ⟨0, some (.wkey 5)⟩⟩]).writers ≠ [] :=
  remove_writer_no_lockout 5 [] ⟨[5], ⟨[], []⟩⟩ [⟨5, 1, ⟨0, some (.wkey 5)⟩⟩] (by decide)

/-! ## Idempotence of the registered handlers -/

lemma filter_self_idem {α : Type} (p : α → Bool) (l : List α) :
    (l.filter p).filter p = l.filter p := by
  rw [List.filter_filter]
  simp

lemma applyOps_append (m : ViewMap) (xs ys : List ViewOp) :
    applyOps m (xs ++ ys) = applyOps (applyOps m xs) ys :=
  List.foldl_append _ _ _ _

lemma applyOps_ins_twice (m : ViewMap) (c pk v : Nat) :
    applyOps (applyOps m [.ins c pk v]) [.ins c pk v] = applyOps m [.ins c pk v] := by
  simp only [applyOps, List.foldl_cons, List.foldl_nil, applyOp]
  rw [List.filter_cons]
  simp [filter_self_idem]

lemma applyOps_del_twice (m : ViewMap) (c pk : Nat) :
    applyOps (applyOps m [.del c pk]) [.del c pk] = applyOps m [.del c pk] := by
  simp only [applyOps, List.foldl_cons, List.foldl_nil, applyOp]
  exact filter_self_idem _ _

lemma applyOps_delins_twice (m : ViewMap) (c pk v : Nat) :
    applyOps (applyOps m [.del c pk, .ins c pk v]) [.del c pk, .ins c pk v]
      = applyOps m [.del c pk, .ins c pk v] := by
  simp only [applyOps, List.foldl_cons, List.foldl_nil, applyOp]
  rw [List.filter_cons]
  simp [filter_self_idem]

/-- A handler action whose double application is unobservable after the
end-of-batch flush. -/
def FlushIdem (a : HandlerAction) : Prop :=
  ∀ s : EngineState, flushState (runAction a (runAction a s)) = flushState (runAction a s)

lemma baseAddWriter_idem (ws : List WriterKey) (k : WriterKey) :
    baseAddWriter (baseAddWriter ws k) k = baseAddWriter ws k := by
  unfold baseAddWriter
  split
  · simp [*]
  · simp

lemma baseRemoveWriter_idem (ws : List WriterKey) (k : WriterKey) :
    baseRemoveWriter (baseRemoveWriter ws k) k = baseRemoveWriter ws k := by
  unfold baseRemoveWriter
  by_cases h : removeable ws k
  · rw [if_pos h]
    split
    · exact filter_self_idem _ _
    · rfl
  · rw [if_neg h, if_neg h]

lemma flushIdem_addW (k : WriterKey) : FlushIdem (.addW k) := by
  intro s
  simp [runAction, baseAddWriter_idem]

lemma flushIdem_remW (k : WriterKey) : FlushIdem (.remW k) := by
  intro s
  simp [runAction, baseRemoveWriter_idem]

lemma flushIdem_viewOps (ops : List ViewOp)
    (hops : ∀ m : ViewMap, applyOps (applyOps m ops) ops = applyOps m ops) :
    FlushIdem (.viewOps ops) := by
  rintro ⟨ws, c, p⟩
  simp only [runAction, stageOps, flushState, flushTx, EngineState.mk.injEq, ViewTx.mk.injEq,
    applyOps_append]
  exact ⟨trivial, hops _, trivial⟩

lemma decodeGigauser_flushIdem (v : Value) (a : HandlerAction)
    (h : decodeGigauser v = .ok a) : FlushIdem a := by
  rcases v with ⟨cmd, pl⟩
  rcases pl with _ | p
  · simp [decodeGigauser] at h
  · rcases p with k | ⟨pk, val⟩ <;>
    · simp only [decodeGigauser] at h
      split_ifs at h <;>
        first
        | (rw [Except.ok.injEq] at h
           subst h
           first
           | exact flushIdem_remW _
           | exact flushIdem_addW _
           | exact flushIdem_viewOps _ (fun m => applyOps_ins_twice m _ _ _)
           | exact flushIdem_viewOps _ (fun m => applyOps_delins_twice m _ _ _)
           | exact flushIdem_viewOps _ (fun m => applyOps_del_twice m _ _))
        | simp at h

lemma decodeGigaroom_flushIdem (v : Value) (a : HandlerAction)
    (h : decodeGigaroom v = .ok a) : FlushIdem a := by
  rcases v with ⟨cmd, pl⟩
  rcases pl with _ | p
  · simp [decodeGigaroom] at h
  · rcases p with k | ⟨pk, val⟩
    · simp only [decodeGigaroom] at h
      split_ifs at h <;>
        first
        | (rw [Except.ok.injEq] at h
           subst h
           first
           | exact flushIdem_remW _
           | exact flushIdem_addW _)
        | simp at h
    · simp only [decodeGigaroom] at h
      cases hk : gigaroomCmdKind cmd with
      | none => rw [hk] at h; simp at h
      | some knd =>
        rw [hk] at h
        rw [Except.ok.injEq] at h
        subst h
        cases knd with
        | insOnly c => exact flushIdem_viewOps _ (fun m => applyOps_ins_twice m _ _ _)
        | delIns c => exact flushIdem_viewOps _ (fun m => applyOps_delins_twice m _ _ _)
        | delOnly c => exact flushIdem_viewOps _ (fun m => applyOps_del_twice m _ _)

lemma stepEntry_twice (decode : Value → Except Unit HandlerAction)
    (hrange : ∀ v a, decode v = .ok a → FlushIdem a)
    (s : EngineState) (e : Entry) :
    flushState (stepEntry decode (stepEntry decode s e) e)
      = flushState (stepEntry decode s e) := by
  unfold stepEntry
  by_cases h1 : e.writer ∈ s.writers
  · simp only [if_pos h1]
    cases hd : decode e.value with
    | error err =>
      simp [applyNode, hd]
    | ok a =>
      simp only [applyNode, hd]
      by_cases h2 : e.writer ∈ (runAction a s).writers
      · rw [if_pos h2]
        exact hrange _ _ hd s
      · rw [if_neg h2]
  · simp only [if_neg h1]

/-- C6: re-applying an already-applied entry is a no-op — for every entry
`e` (any registered Gigauser or GigaRoom command, including insert-only
handlers such as add-invite and delete-then-insert handlers such as
set-profile), replaying a sequence that contains `e` twice produces the
same flushed state as replaying it once. -/
theorem reapply_entry_noop (l : List Entry) (e : Entry) (s0 : EngineState) :
    replayEntries decodeGigauser s0 (l ++ [e, e]) = replayEntries decodeGigauser s0 (l ++ [e])
    ∧ replayEntries decodeGigaroom s0 (l ++ [e, e])
      = replayEntries decodeGigaroom s0 (l ++ [e]) := by
  constructor
  · unfold replayEntries
    rw [List.foldl_append, List.foldl_append]
    simp only [List.foldl_cons, List.foldl_nil]
    exact stepEntry_twice decodeGigauser decodeGigauser_flushIdem _ e
  · unfold replayEntries
    rw [List.foldl_append, List.foldl_append]
    simp only [List.foldl_cons, List.foldl_nil]
    exact stepEntry_twice decodeGigaroom decodeGigaroom_flushIdem _ e

/-! ## Invite lifecycle (src/lib/gigaroom/Gigaroom.js) -/

/-- An `@gigaroom/invite` record as stored by `GigaRoom.createInvite`
(Gigaroom.js:877-898): invite id, the invite public key, expiry time
(0 models a falsy/absent expiry), room id, `maxUses`, `useCount` and
`isRevoked`. -/
structure InviteRec where
  id : Nat
  invitePub : Nat
  expires : Nat
  roomId : Nat
  maxUses : Nat
  useCount : Nat
  isRevoked : Bool
deriving Repr, DecidableEq

/-- `GigaRoom.createInvite(opts)` (Gigaroom.js:877-898): builds the
invite record with `expires: opts.expires || now + 24h`,
`maxUses: opts.maxUses || 0`, `useCount: 0`, `isRevoked: false` and
appends it via `@gigaroom/add-invite`.  The id and public key come from
`BlindPairing.createInvite` and are taken as parameters. -/
def gigaroomCreateInvite (id invitePub : Nat) (optsExpires optsMaxUses : Nat)
    (now roomId : Nat) : InviteRec :=
  { id := id
    invitePub := invitePub
    expires := if optsExpires ≠ 0 then optsExpires else now + 24 * 60 * 60 * 1000
    roomId := roomId
    maxUses := if optsMaxUses ≠ 0 then optsMaxUses else 0
    useCount := 0
    isRevoked := false }

/-- The outcome of the member-side `onadd` redemption handler. -/
structure PairingResponse where
  admitted : Bool
  addWriterAppended : Option WriterKey
deriving Repr, DecidableEq

/-- `GigaRoom._replicate`'s `member.onadd` (Gigaroom.js:727-761): scan
the stored invites for the candidate's invite id (first match); return
silently if none matches; return silently if `inv.expires` is truthy and
in the past; otherwise open the candidate, append
`add-writer(candidate.userData)` and confirm. -/
def gigaroomMemberOnAdd (invites : List InviteRec) (candidateInviteId : Nat)
    (candidateUserData : WriterKey) (now : Nat) : PairingResponse :=
  match invites.find? (fun inv => inv.id == candidateInviteId) with
  | none => { admitted := false, addWriterAppended := none }
  | some inv =>
    if inv.expires ≠ 0 ∧ inv.expires < now then
      { admitted := false, addWriterAppended := none }
    else
      { admitted := true, addWriterAppended := some candidateUserData }

/-- C3 counterexample: a stored invite that is simultaneously exhausted
(`useCount = maxUses = 1`) and revoked, with no expiry, still admits a
candidate: the redemption handler appends an add-writer for it, so the
claimed `useCount >= maxUses` / `revoked` rejections do not happen. -/
theorem invite_lifecycle_counterexample :
    (gigaroomMemberOnAdd
        [{ id := 1, invitePub := 7, expires := 0, roomId := 3, maxUses := 1,
           useCount := 1, isRevoked := true }] 1 42 1000)
      = { admitted := true, addWriterAppended := some 42 } := by
  rfl

/-- C3 amended: a redemption attempt is rejected iff no stored invite
matches the candidate's invite id or the first matching invite has a
nonzero expiry in the past.  `maxUses`, `useCount` (never incremented)
and `isRevoked` are stored by `createInvite` but never consulted, so an
invite created with `maxUses = 1` admits every candidate that presents
its token — including a second one. -/
theorem invite_redemption_checks_only_expiry (invites : List InviteRec)
    (cid u u2 : Nat) (now : Nat) (idv pubv rid : Nat) :
    ((gigaroomMemberOnAdd invites cid u now).admitted = true
      ↔ ∃ inv, invites.find? (fun i => i.id == cid) = some inv
          ∧ (inv.expires = 0 ∨ ¬ inv.expires < now))
    ∧ (gigaroomMemberOnAdd [gigaroomCreateInvite idv pubv 0 1 now rid] idv u
        (now + 10)).admitted = true
    ∧ (gigaroomMemberOnAdd [gigaroomCreateInvite idv pubv 0 1 now rid] idv u2
        (now + 10)).admitted = true := by
  refine ⟨?_, ?_, ?_⟩
  · cases hf : invites.find? (fun i => i.id == cid) with
    | none => simp [gigaroomMemberOnAdd, hf]
    | some inv =>
      simp only [gigaroomMemberOnAdd, hf]
      split
      · rename_i hcond
        constructor
        · intro hfalse; exact Bool.noConfusion hfalse
        · rintro ⟨inv2, hinv2, h2⟩
          rw [Option.some.injEq] at hinv2
          subst hinv2
          rcases h2 with h2 | h2
          · exact absurd h2 hcond.1
          · exact absurd hcond.2 h2
      · rename_i hcond
        constructor
        · intro _
          refine ⟨inv, rfl, ?_⟩
          by_cases hz : inv.expires = 0
          · exact Or.inl hz
          · exact Or.inr fun hlt => hcond ⟨hz, hlt⟩
        · intro _; rfl
  all_goals
  · have hfind : List.find? (fun inv => inv.id == idv)
        [gigaroomCreateInvite idv pubv 0 1 now rid]
        = some (gigaroomCreateInvite idv pubv 0 1 now rid) := by
      simp [List.find?, gigaroomCreateInvite]
    simp only [gigaroomMemberOnAdd, hfind]
    split
    · rename_i hcond
      exfalso
      have hexp : (gigaroomCreateInvite idv pubv 0 1 now rid).expires
          = now + 24 * 60 * 60 * 1000 := by simp [gigaroomCreateInvite]
      rw [hexp] at hcond
      omega
    · rfl

/-! ## Not-writable append failures (RoomManager, src/unnamed/part_002) -/

/-- `RoomManager.sendMessage(message)` (part_002:662-700): throws
`Not writable` before anything is appended when the base is not
writable; otherwise appends the `@room/add-message` entry and returns
the message. -/
def roomManagerSendMessage (writable : Bool) (log : List Value) (msgId content : Nat) :
    Except String (List Value) :=
  if writable = false then .error "Not writable"
  else .ok (log ++ [{ cmd := 20, payload := some (.record msgId content) }])

/-- `RoomManager.createInvite(opts)` (part_002:574-598): throws
`Not writable` when the base is not writable; otherwise returns the
existing invite's token unchanged, or creates and appends a new one. -/
def roomManagerCreateInvite (writable : Bool) (existingToken : Option Nat)
    (log : List Value) (newId newToken : Nat) : Except String (Nat × List Value) :=
  if writable = false then .error "Not writable"
  else
    match existingToken with
    | some t => .ok (t, log)
    | none => .ok (newToken, log ++ [{ cmd := 2, payload := some (.record newId newToken) }])

/-- `RoomManager.addWriter(key)` (part_002:605-621): throws
`Not writable` when the base is not writable; otherwise appends the
`@room/add-writer` entry and returns `true`. -/
def roomManagerAddWriter (writable : Bool) (log : List Value) (k : WriterKey) :
    Except String (Bool × List Value) :=
  if writable = false then .error "Not writable"
  else .ok (true, log ++ [{ cmd := 1, payload := some (.wkey k) }])

/-- C7: every local append-path operation invoked while the base is not
writable (the local writer key is not in the writer set) fails
synchronously with the `Not writable` error and appends nothing to the
log: no `.ok` result — and hence no appended entry — is produced. -/
theorem not_writable_rejects_appends (log : List Value) (msgId content : Nat)
    (existingToken : Option Nat) (newId newToken : Nat) (k : WriterKey)
    (ws : List WriterKey) :
    roomManagerSendMessage false log msgId content = .error "Not writable"
    ∧ roomManagerCreateInvite false existingToken log newId newToken = .error "Not writable"
    ∧ roomManagerAddWriter false log k = .error "Not writable"
    ∧ roomManagerRemoveWriter false ws log k = .error "Not writable" :=
  ⟨rfl, rfl, rfl, rfl⟩

/-! ## Device pairing timeout (src/lib/gigauser/Gigauser.js) -/

/-- The global pairing timeout of `Gigauser.pairDevice`:
`setTimeout(..., 45000)`. -/
def pairingTimeoutMs : Nat := 45000

/-- Resources held by a `GigauserPairer` (swarm, candidate, store). -/
structure PairerResources where
  candidateClosed : Bool
  swarmDestroyed : Bool
  storeClosed : Bool
deriving Repr, DecidableEq

/-- The observable outcome of one `Gigauser.pairDevice` call. -/
structure PairDeviceRun where
  result : Except String Unit
  pairerClosed : Bool

/-- `Gigauser.pairDevice(store, inviteCode, opts)` (Gigauser.js:1611-1632):
validates its arguments, races `pair.finished()` against the 45 s
timeout, and on timeout rejects with `Pairing timed out`; the catch block
only logs and rethrows — `pair.close()` is never invoked on any path, so
`pairerClosed` is `false` throughout.  `finishesWithinTimeout` says which
arm of `Promise.race` settles first. -/
def gigauserPairDevice (hasStore hasInvite : Bool) (finishesWithinTimeout : Bool) :
    PairDeviceRun :=
  if hasStore = false then { result := .error "Corestore is required", pairerClosed := false }
  else if hasInvite = false then
    { result := .error "Invite code is required", pairerClosed := false }
  else if finishesWithinTimeout then { result := .ok (), pairerClosed := false }
  else { result := .error "Pairing timed out", pairerClosed := false }

/-- `GigauserPairer._close` (Gigauser.js:90-108): closes the candidate,
destroys the swarm and closes the store — but it only runs when the
caller invokes `close()` on the pairer. -/
def gigauserPairerClose (_r : PairerResources) : PairerResources :=
  { candidateClosed := true, swarmDestroyed := true, storeClosed := true }

/-- C8 counterexample: when pairing does not finish within the 45 s
bound, `pairDevice` rejects with the pairing-timeout error but does
*not* release the rendezvous session — the pairer (swarm/candidate) is
left open, since no path of `pairDevice` invokes `pair.close()`. -/
theorem pairing_timeout_counterexample :
    gigauserPairDevice true true false
      = { result := .error "Pairing timed out", pairerClosed := false } := by
  rfl

/-- C8 amended: `pairDevice` is time-bounded by the 45000 ms race and on
timeout fails with the pairing-timeout error, but it does not release
the rendezvous session: the pairer is closed on no path of `pairDevice`;
the swarm/candidate/store resources are released only when the caller
separately invokes the pairer's `close()` (whose `_close` does close all
three). -/
theorem pairing_timeout_no_release (r : PairerResources) (finishes : Bool) :
    pairingTimeoutMs = 45000
    ∧ (gigauserPairDevice true true false).result = .error "Pairing timed out"
    ∧ (gigauserPairDevice true true finishes).pairerClosed = false
    ∧ gigauserPairerClose r
        = { candidateClosed := true, swarmDestroyed := true, storeClosed := true } := by
  refine ⟨rfl, rfl, ?_, rfl⟩
  cases finishes <;> rfl

end Gigachat
